import Mathlib

/-!
The game loop of `sdl2boilerplate.cpp` (sdl2-boilerplate).

A shallow embedding of `class Game` (key map, hero sprite, running flag,
frame-skip threshold) and of the body of `Game::run`.

Modelling conventions.

* C++ `int` values are mathematical integers (`Int`).  Signed overflow is
  undefined behaviour in C++, so the embedding describes the executions in
  which no `int` operation overflows.
* `std::map<int,int>` is a partial function from keys to values: `none` means
  that the map holds no entry for the key.
* The SDL library is the environment.  What `SDL_PollEvent` and
  `SDL_GetTicks` return in each loop iteration is supplied as a script, one
  pair per iteration; the calls to `update()`, `draw()` and `fpsChanged()`
  are recorded in a call log, newest call first.
* `SDL_GetTicks()` returns a `Uint32`, and `Game::run` stores it in `int`
  variables.  That conversion is `toInt32`: the value is reduced modulo `2^32`
  into the range of `int`, so a reading of `2^31` or more is stored as a
  negative number.  The differences `now - past` and `now - pastFps` are then
  `int` subtractions, covered by the first convention.
-/

namespace Sdl2Boilerplate

/-! ## Constants -/

/-- Enumerator `DISPLAY_WIDTH`. -/
def DISPLAY_WIDTH : Int := 480

/-- Enumerator `DISPLAY_HEIGHT`. -/
def DISPLAY_HEIGHT : Int := 320

/-- Enumerator `UPDATE_INTERVAL = 1000/60` (integer division). -/
def UPDATE_INTERVAL : Int := 1000 / 60

/-- Enumerator `HERO_SPEED`. -/
def HERO_SPEED : Int := 2

/-- Keycode `SDLK_RIGHT` of SDL2 (`SDL_keycode.h`): scancode 79 with bit 30 set. -/
def SDLK_RIGHT : Int := 1073741903

/-- Keycode `SDLK_LEFT` of SDL2 (`SDL_keycode.h`): scancode 80 with bit 30 set. -/
def SDLK_LEFT : Int := 1073741904

/-- Keycode `SDLK_DOWN` of SDL2 (`SDL_keycode.h`): scancode 81 with bit 30 set. -/
def SDLK_DOWN : Int := 1073741905

/-- Keycode `SDLK_UP` of SDL2 (`SDL_keycode.h`): scancode 82 with bit 30 set. -/
def SDLK_UP : Int := 1073741906

/-- The conversion of a `Uint32` value to a 32-bit `int`, as in
`int past = SDL_GetTicks();`: the result is the integer congruent to the value
modulo `2^32` that lies between `-2^31` and `2^31 - 1`. -/
def toInt32 (n : Int) : Int := (n + 2147483648) % 4294967296 - 2147483648

/-! ## Data model -/

/-- The struct `Sprite`: both coordinates start at 0. -/
structure Sprite where
  x : Int := 0
  y : Int := 0
deriving DecidableEq, Repr

/-- The type `std::map<int,int>` of `m_keys`: `none` is "no entry". -/
abbrev KeyMap := Int → Option Int

/-- The empty map. -/
def KeyMap.empty : KeyMap := fun _ => none

/-- The read `m[k]` through `std::map::operator[]`: when `k` has no entry, a
value-initialised entry (0) is inserted first.  Returns the map afterwards and
the value read. -/
def KeyMap.index (m : KeyMap) (k : Int) : KeyMap × Int :=
  match m k with
  | some v => (m, v)
  | none => (fun j => if j = k then some 0 else m j, 0)

/-- The statement `m[k] = v`: `operator[]` finds or inserts the entry, then the
value is stored in it. -/
def KeyMap.assign (m : KeyMap) (k v : Int) : KeyMap :=
  fun j => if j = k then some v else (m.index k).1 j

/-- The held state read for `k`: the condition `m_keys[k]` of an `if`, that is,
the value read through `operator[]` is non-zero. -/
def KeyMap.held (m : KeyMap) (k : Int) : Bool :=
  decide ((m.index k).2 ≠ 0)

/-- The map an `operator[]` read of `k` leaves behind. -/
def KeyMap.touch (m : KeyMap) (k : Int) : KeyMap := (m.index k).1

/-- The data members of `class Game` the loop works on.  The SDL handles
`m_window` and `m_renderer` belong to the environment. -/
structure Game where
  m_keys : KeyMap
  m_frameSkip : Int
  m_running : Bool
  m_hero : Sprite

/-- The constructor `Game::Game()`. -/
def Game.new : Game :=
  { m_keys := KeyMap.empty, m_frameSkip := 0, m_running := false, m_hero := {} }

/-- The events `Game::run` tells apart by `event.type`; `other` stands for every
type without an effect (the mouse cases and the types the `switch` omits). -/
inductive Event where
  | quit
  | keyDown (sym : Int)
  | keyUp (sym : Int)
  | other
deriving DecidableEq, Repr

/-- The calls whose order the loop decides. `draw` carries the rectangle origin
it paints, `fpsChanged` its argument. -/
inductive Call where
  | update
  | draw (x y : Int)
  | fpsChanged (fps : Int)
deriving DecidableEq, Repr

/-! ## Member functions -/

/-- The function `Game::onQuit`. -/
def onQuit (g : Game) : Game :=
  { g with m_running := false }

/-- The function `Game::onKeyDown`; `sym` is `evt->key.keysym.sym`. -/
def onKeyDown (g : Game) (sym : Int) : Game :=
  { g with m_keys := g.m_keys.assign sym 1 }

/-- The function `Game::onKeyUp`; `sym` is `evt->key.keysym.sym`. -/
def onKeyUp (g : Game) (sym : Int) : Game :=
  { g with m_keys := g.m_keys.assign sym 0 }

/-- The function `Game::update`: the `if / else if` chain over the four arrow
keys.  Each condition is an `operator[]` read, so the map is threaded through. -/
def update (g : Game) : Game :=
  let rL := g.m_keys.index SDLK_LEFT
  if rL.2 ≠ 0 then
    { g with m_keys := rL.1, m_hero := { g.m_hero with x := g.m_hero.x - HERO_SPEED } }
  else
    let rR := rL.1.index SDLK_RIGHT
    if rR.2 ≠ 0 then
      { g with m_keys := rR.1, m_hero := { g.m_hero with x := g.m_hero.x + HERO_SPEED } }
    else
      let rU := rR.1.index SDLK_UP
      if rU.2 ≠ 0 then
        { g with m_keys := rU.1, m_hero := { g.m_hero with y := g.m_hero.y - HERO_SPEED } }
      else
        let rD := rU.1.index SDLK_DOWN
        if rD.2 ≠ 0 then
          { g with m_keys := rD.1, m_hero := { g.m_hero with y := g.m_hero.y + HERO_SPEED } }
        else
          { g with m_keys := rD.1 }

/-! ## The loop of `Game::run` -/

/-- The game object together with the locals of `Game::run` and the call log
(newest call first). -/
structure RunState where
  game : Game
  past : Int
  now : Int
  pastFps : Int
  fps : Int
  framesSkipped : Int
  calls : List Call

/-- What the environment supplies to one loop iteration: the event
`SDL_PollEvent` delivers (`none` when it returns 0) and the `Uint32` value
`SDL_GetTicks()` returns, before its conversion to `int`. -/
abbrev Script := List (Option Event × Int)

/-- The declarations at the head of `Game::run`; `ticks` is what the first
`SDL_GetTicks()` call returns, and `int past` holds its conversion. -/
def runInit (g : Game) (ticks : Int) : RunState :=
  let past := toInt32 ticks
  { game := g, past := past, now := past, pastFps := past, fps := 0,
    framesSkipped := 0, calls := [] }

/-- The statement `switch (event.type)` of the loop body. -/
def dispatch (g : Game) : Event → Game
  | Event.quit => onQuit g
  | Event.keyDown sym => onKeyDown g sym
  | Event.keyUp sym => onKeyUp g sym
  | Event.other => g

/-- The statement `if (SDL_PollEvent(&event)) switch (event.type) ...`. -/
def pollBlock (s : RunState) : Option Event → RunState
  | some e => { s with game := dispatch s.game e }
  | none => s

/-- The statement `if (framesSkipped++ >= m_frameSkip) { draw(); ++fps;
framesSkipped = 0; }`: the comparison uses the value before the increment. -/
def frameSkipBlock (s : RunState) : RunState :=
  let old := s.framesSkipped
  let s1 := { s with framesSkipped := old + 1 }
  if old ≥ s1.game.m_frameSkip then
    { s1 with
      calls := Call.draw s1.game.m_hero.x s1.game.m_hero.y :: s1.calls
      fps := s1.fps + 1
      framesSkipped := 0 }
  else s1

/-- The "update/draw" part of the loop body: `now` is set from what
`SDL_GetTicks()` returns (`ticks`), converted to `int`, and when
`timeElapsed >= UPDATE_INTERVAL` the block sets `past`, calls `update()` and
runs the frame-skip statement. -/
def updateBlock (s : RunState) (ticks : Int) : RunState :=
  let s1 := { s with now := toInt32 ticks }
  let timeElapsed := s1.now - s1.past
  if timeElapsed ≥ UPDATE_INTERVAL then
    frameSkipBlock
      { s1 with past := s1.now, game := update s1.game, calls := Call.update :: s1.calls }
  else s1

/-- The "fps" part of the loop body. -/
def fpsBlock (s : RunState) : RunState :=
  if s.now - s.pastFps ≥ 1000 then
    { s with pastFps := s.now, calls := Call.fpsChanged s.fps :: s.calls, fps := 0 }
  else s

/-- One pass through the body of `while (m_running)`. -/
def iteration (s : RunState) (ev : Option Event) (ticks : Int) : RunState :=
  fpsBlock (updateBlock (pollBlock s ev) ticks)

/-- The loop `while (m_running) { ... }`, driven by the script of what the
environment supplies; it stops where the script ends or `m_running` is false. -/
def runLoop : RunState → Script → RunState
  | s, [] => s
  | s, (ev, ticks) :: rest =>
    if s.game.m_running then runLoop (iteration s ev ticks) rest else s

/-- The function `Game::run`. -/
def run (g : Game) (ticks : Int) (script : Script) : RunState :=
  runLoop (runInit g ticks) script

/-- The function `Game::start`: it returns early, without entering the loop,
when `SDL_Init` or `SDL_CreateWindowAndRenderer` fails (returns non-zero);
otherwise it sets `m_running` and calls `run()`. -/
def start (g : Game) (initFailed windowFailed : Bool) (ticks : Int) (script : Script) :
    Option RunState :=
  if initFailed then none
  else if windowFailed then none
  else some (run { g with m_running := true } ticks script)

/-! ## Reading the call log -/

/-- Whether a logged call is a call of `update()`. -/
def Call.isUpdate : Call → Bool
  | Call.update => true
  | _ => false

/-- Whether a logged call is a call of `draw()`. -/
def Call.isDraw : Call → Bool
  | Call.draw _ _ => true
  | _ => false

/-- Whether a logged call is a call of `fpsChanged()`. -/
def Call.isFpsChanged : Call → Bool
  | Call.fpsChanged _ => true
  | _ => false

/-- The number of `update()` calls in a log: the number of due update ticks. -/
def updates (calls : List Call) : Nat := calls.countP Call.isUpdate

/-- The number of `draw()` calls in a log: the number of renders. -/
def draws (calls : List Call) : Nat := calls.countP Call.isDraw

/-- The number of `draw()` calls logged after the latest `fpsChanged()` call, or
in the whole log when it has none (the log is newest first). -/
def rendersSinceReport (calls : List Call) : Nat :=
  draws (calls.takeWhile fun c => !c.isFpsChanged)

/-! ## Key map lemmas -/

theorem KeyMap.index_fst_apply (m : KeyMap) (k j : Int) :
    (m.index k).1 j = if j = k then some ((m k).getD 0) else m j := by
  unfold KeyMap.index
  cases h : m k with
  | none => simp
  | some v =>
    by_cases hj : j = k
    · subst hj; simp [h]
    · simp [hj]

theorem KeyMap.index_snd (m : KeyMap) (k : Int) : (m.index k).2 = (m k).getD 0 := by
  unfold KeyMap.index
  cases h : m k <;> simp

theorem KeyMap.held_eq (m : KeyMap) (k : Int) :
    m.held k = decide ((m k).getD 0 ≠ 0) := by
  unfold KeyMap.held
  rw [KeyMap.index_snd]

theorem KeyMap.held_index (m : KeyMap) (k j : Int) :
    KeyMap.held (m.index k).1 j = m.held j := by
  rw [KeyMap.held_eq, KeyMap.held_eq, KeyMap.index_fst_apply]
  by_cases hj : j = k
  · subst hj; simp
  · simp [hj]

theorem KeyMap.index_snd_ne_zero (m : KeyMap) (k : Int) :
    (m.index k).2 ≠ 0 ↔ m.held k = true := by
  simp [KeyMap.held]

theorem KeyMap.held_assign (m : KeyMap) (k v j : Int) :
    KeyMap.held (m.assign k v) j = if j = k then decide (v ≠ 0) else m.held j := by
  rw [KeyMap.held_eq, KeyMap.held_eq]
  unfold KeyMap.assign
  by_cases hj : j = k
  · simp [hj]
  · simp [hj, KeyMap.index_fst_apply]

theorem KeyMap.held_empty (k : Int) : KeyMap.held KeyMap.empty k = false := by
  simp [KeyMap.held_eq, KeyMap.empty]

theorem update_hero (g : Game) :
    (update g).m_hero =
      if g.m_keys.held SDLK_LEFT = true then ⟨g.m_hero.x - 2, g.m_hero.y⟩
      else if g.m_keys.held SDLK_RIGHT = true then ⟨g.m_hero.x + 2, g.m_hero.y⟩
      else if g.m_keys.held SDLK_UP = true then ⟨g.m_hero.x, g.m_hero.y - 2⟩
      else if g.m_keys.held SDLK_DOWN = true then ⟨g.m_hero.x, g.m_hero.y + 2⟩
      else g.m_hero := by
  simp only [update, KeyMap.index_snd_ne_zero, KeyMap.held_index, HERO_SPEED]
  split_ifs <;> rfl

theorem update_keys (g : Game) :
    (update g).m_keys =
      if g.m_keys.held SDLK_LEFT = true then g.m_keys.touch SDLK_LEFT
      else if g.m_keys.held SDLK_RIGHT = true then
        (g.m_keys.touch SDLK_LEFT).touch SDLK_RIGHT
      else if g.m_keys.held SDLK_UP = true then
        ((g.m_keys.touch SDLK_LEFT).touch SDLK_RIGHT).touch SDLK_UP
      else (((g.m_keys.touch SDLK_LEFT).touch SDLK_RIGHT).touch SDLK_UP).touch SDLK_DOWN := by
  simp only [update, KeyMap.index_snd_ne_zero, KeyMap.held_index, KeyMap.touch]
  split_ifs <;> rfl

theorem update_frameSkip (g : Game) : (update g).m_frameSkip = g.m_frameSkip := by
  simp only [update]
  split_ifs <;> rfl

theorem update_running (g : Game) : (update g).m_running = g.m_running := by
  simp only [update]
  split_ifs <;> rfl

theorem KeyMap.held_touch (m : KeyMap) (k j : Int) : (m.touch k).held j = m.held j :=
  KeyMap.held_index m k j

theorem KeyMap.touch_of_some {m : KeyMap} {j v : Int} (k : Int) (h : m j = some v) :
    m.touch k j = some v := by
  rw [KeyMap.touch, KeyMap.index_fst_apply]
  by_cases hj : j = k
  · subst hj; simp [h]
  · simp [hj, h]

theorem KeyMap.touch_of_none {m : KeyMap} {j : Int} (k : Int) (h : m j = none) :
    m.touch k j = none ∨ (j = k ∧ m.touch k j = some 0) := by
  rw [KeyMap.touch, KeyMap.index_fst_apply]
  by_cases hj : j = k
  · subst hj; simp [h]
  · simp [hj, h]

theorem update_held (g : Game) (k : Int) : (update g).m_keys.held k = g.m_keys.held k := by
  rw [update_keys]
  split_ifs <;> simp only [KeyMap.held_touch]


/-! ## The simulation step `Game::update` -/

/-- C3. Direction priority of `Game::update`: one call moves the hero to
`(x-2, y)` if left is held, otherwise to `(x+2, y)` if right is held, otherwise
to `(x, y-2)` if up is held, otherwise to `(x, y+2)` if down is held, and
otherwise leaves `(x, y)` as it is.  In particular left wins over right, at
most one coordinate changes, and with no arrow key held nothing moves. -/
theorem update_direction_priority (g : Game) :
    ((update g).m_hero =
      if g.m_keys.held SDLK_LEFT = true then ⟨g.m_hero.x - 2, g.m_hero.y⟩
      else if g.m_keys.held SDLK_RIGHT = true then ⟨g.m_hero.x + 2, g.m_hero.y⟩
      else if g.m_keys.held SDLK_UP = true then ⟨g.m_hero.x, g.m_hero.y - 2⟩
      else if g.m_keys.held SDLK_DOWN = true then ⟨g.m_hero.x, g.m_hero.y + 2⟩
      else g.m_hero)
    ∧ (g.m_keys.held SDLK_LEFT = true → g.m_keys.held SDLK_RIGHT = true →
        (update g).m_hero = ⟨g.m_hero.x - 2, g.m_hero.y⟩)
    ∧ ((update g).m_hero.x = g.m_hero.x ∨ (update g).m_hero.y = g.m_hero.y)
    ∧ (g.m_keys.held SDLK_LEFT = false → g.m_keys.held SDLK_RIGHT = false →
        g.m_keys.held SDLK_UP = false → g.m_keys.held SDLK_DOWN = false →
        (update g).m_hero = g.m_hero) := by
  refine ⟨update_hero g, ?_, ?_, ?_⟩
  · intro hl _
    rw [update_hero, if_pos hl]
  · rw [update_hero]
    split_ifs <;> simp
  · intro hl hr hu hd
    rw [update_hero]
    simp [hl, hr, hu, hd]

/-- C3 at a concrete input: left and right are both pressed, the hero goes from
`(0, 0)` to `(-2, 0)`. -/
theorem update_direction_priority_witness :
    (update (onKeyDown (onKeyDown Game.new SDLK_RIGHT) SDLK_LEFT)).m_hero = ⟨0 - 2, 0⟩ :=
  (update_direction_priority (onKeyDown (onKeyDown Game.new SDLK_RIGHT) SDLK_LEFT)).2.1
    (by decide) (by decide)

/-- C9, as the claim states it, fails: on the freshly constructed game the key
map has no entry for `SDLK_LEFT`, and after `update()` it has one. -/
theorem update_inserts_entry :
    Game.new.m_keys SDLK_LEFT = none
    ∧ (update Game.new).m_keys SDLK_LEFT = some 0
    ∧ (update Game.new).m_keys ≠ Game.new.m_keys := by
  refine ⟨by decide, by decide, ?_⟩
  intro h
  have h1 : (update Game.new).m_keys SDLK_LEFT = Game.new.m_keys SDLK_LEFT := by rw [h]
  revert h1
  decide

/-- C9, amended. `Game::update` keeps every entry of `m_keys` with its value;
a key without an entry either stays without one or is one of the four arrow
keys and gets an entry with value 0; the read of `SDLK_LEFT` always leaves an
entry behind. -/
theorem update_keeps_entries (g : Game) (k : Int) :
    (∀ v, g.m_keys k = some v → (update g).m_keys k = some v)
    ∧ (g.m_keys k = none →
        (update g).m_keys k = none
        ∨ ((update g).m_keys k = some 0
            ∧ (k = SDLK_LEFT ∨ k = SDLK_RIGHT ∨ k = SDLK_UP ∨ k = SDLK_DOWN)))
    ∧ ((update g).m_keys SDLK_LEFT).isSome = true := by
  have step : ∀ (m : KeyMap) (j : Int) (P : Prop),
      (m k = none ∨ (m k = some 0 ∧ P)) →
      ((m.touch j) k = none ∨ ((m.touch j) k = some 0 ∧ (P ∨ k = j))) := by
    intro m j P h
    rcases h with h0 | ⟨h0, hP⟩
    · rcases KeyMap.touch_of_none j h0 with h1 | ⟨h1, h2⟩
      · exact Or.inl h1
      · exact Or.inr ⟨h2, Or.inr h1⟩
    · exact Or.inr ⟨KeyMap.touch_of_some j h0, Or.inl hP⟩
  have left_some : ∀ m : KeyMap, (m.touch SDLK_LEFT SDLK_LEFT).isSome = true := by
    intro m
    simp [KeyMap.touch, KeyMap.index_fst_apply]
  have keep : ∀ (m : KeyMap) (j : Int), (m SDLK_LEFT).isSome = true →
      (m.touch j SDLK_LEFT).isSome = true := by
    intro m j h
    obtain ⟨v, hv⟩ := Option.isSome_iff_exists.mp h
    rw [KeyMap.touch_of_some j hv]
    rfl
  refine ⟨?_, ?_, ?_⟩
  · intro v hv
    have h1 := KeyMap.touch_of_some SDLK_LEFT hv
    have h2 := KeyMap.touch_of_some SDLK_RIGHT h1
    have h3 := KeyMap.touch_of_some SDLK_UP h2
    have h4 := KeyMap.touch_of_some SDLK_DOWN h3
    rw [update_keys]
    split_ifs
    · exact h1
    · exact h2
    · exact h3
    · exact h4
  · intro hk
    have h1 := step g.m_keys SDLK_LEFT False (Or.inl hk)
    have h2 := step (g.m_keys.touch SDLK_LEFT) SDLK_RIGHT _ h1
    have h3 := step ((g.m_keys.touch SDLK_LEFT).touch SDLK_RIGHT) SDLK_UP _ h2
    have h4 := step (((g.m_keys.touch SDLK_LEFT).touch SDLK_RIGHT).touch SDLK_UP)
      SDLK_DOWN _ h3
    rw [update_keys]
    split_ifs
    · rcases h1 with h | ⟨h, hf | hP⟩
      · exact Or.inl h
      · exact hf.elim
      · exact Or.inr ⟨h, Or.inl hP⟩
    · rcases h2 with h | ⟨h, (hf | hP) | hP⟩
      · exact Or.inl h
      · exact hf.elim
      · exact Or.inr ⟨h, Or.inl hP⟩
      · exact Or.inr ⟨h, Or.inr (Or.inl hP)⟩
    · rcases h3 with h | ⟨h, ((hf | hP) | hP) | hP⟩
      · exact Or.inl h
      · exact hf.elim
      · exact Or.inr ⟨h, Or.inl hP⟩
      · exact Or.inr ⟨h, Or.inr (Or.inl hP)⟩
      · exact Or.inr ⟨h, Or.inr (Or.inr (Or.inl hP))⟩
    · rcases h4 with h | ⟨h, (((hf | hP) | hP) | hP) | hP⟩
      · exact Or.inl h
      · exact hf.elim
      · exact Or.inr ⟨h, Or.inl hP⟩
      · exact Or.inr ⟨h, Or.inr (Or.inl hP)⟩
      · exact Or.inr ⟨h, Or.inr (Or.inr (Or.inl hP))⟩
      · exact Or.inr ⟨h, Or.inr (Or.inr (Or.inr hP))⟩
  · rw [update_keys]
    split_ifs
    · exact left_some _
    · exact keep _ _ (left_some _)
    · exact keep _ _ (keep _ _ (left_some _))
    · exact keep _ _ (keep _ _ (keep _ _ (left_some _)))

/-- C9 amended, at a concrete input: the entry `SDLK_UP ↦ 1` made by a key-down
survives `update()`. -/
theorem update_keeps_entries_witness :
    (update (onKeyDown Game.new SDLK_UP)).m_keys SDLK_UP = some 1 :=
  (update_keeps_entries (onKeyDown Game.new SDLK_UP) SDLK_UP).1 1 (by decide)

/-- C10. The held state read for any key is the same after `Game::update` as
before it, and an entry that `update()` inserts has value 0. -/
theorem update_preserves_held (g : Game) (k : Int) :
    (update g).m_keys.held k = g.m_keys.held k
    ∧ (g.m_keys k = none → ∀ v, (update g).m_keys k = some v → v = 0) := by
  refine ⟨update_held g k, ?_⟩
  intro hk v hv
  have h : (update g).m_keys.held k = false := by
    rw [update_held, KeyMap.held_eq, hk]
    simp
  rw [KeyMap.held_eq, hv] at h
  simpa using h

/-- C10 at a concrete input: the entry `update()` inserts for `SDLK_LEFT` into
the empty map has value 0. -/
theorem update_preserves_held_witness :
    ∀ v, (update Game.new).m_keys SDLK_LEFT = some v → v = 0 :=
  (update_preserves_held Game.new SDLK_LEFT).2 (by decide)

theorem update_iterate_held (n : Nat) (g : Game) (k : Int) :
    (update^[n] g).m_keys.held k = g.m_keys.held k := by
  induction n generalizing g with
  | zero => rfl
  | succ n ih => rw [Function.iterate_succ_apply, ih, update_held]

/-- C8. With up held and neither left nor right held (whatever the state of
down), `n` calls of `update()`, one per due tick, take the hero from `(x, y)`
to `(x, y - 2n)`. -/
theorem held_up_ticks (n : Nat) (g : Game)
    (hl : g.m_keys.held SDLK_LEFT = false) (hr : g.m_keys.held SDLK_RIGHT = false)
    (hu : g.m_keys.held SDLK_UP = true) :
    (update^[n] g).m_hero = ⟨g.m_hero.x, g.m_hero.y - 2 * n⟩ := by
  induction n with
  | zero => simp
  | succ n ih =>
    rw [Function.iterate_succ_apply', update_hero, ih]
    simp only [update_iterate_held, hl, hr, hu]
    simp only [Bool.false_eq_true, if_false, if_true, Nat.cast_succ, Sprite.mk.injEq, true_and]
    ring

/-- C8 at the scenario of the specification: from `(0, 0)`, with only up held,
10 due ticks end at `(0, -20)`. -/
theorem held_up_ticks_witness :
    (onKeyDown Game.new SDLK_UP).m_hero = ⟨0, 0⟩
    ∧ (update^[10] (onKeyDown Game.new SDLK_UP)).m_hero = ⟨0, 0 - 2 * (10 : Nat)⟩ :=
  ⟨by decide,
   held_up_ticks 10 (onKeyDown Game.new SDLK_UP) (by decide) (by decide) (by decide)⟩

/-! ## The key handlers -/

theorem dispatch_held (g : Game) (e : Event) (k : Int) :
    (dispatch g e).m_keys.held k =
      if e = Event.keyDown k then true
      else if e = Event.keyUp k then false
      else g.m_keys.held k := by
  cases e with
  | quit => simp [dispatch, onQuit]
  | other => simp [dispatch]
  | keyDown j =>
    simp only [dispatch, onKeyDown, KeyMap.held_assign, Event.keyDown.injEq]
    by_cases h : k = j
    · simp [h]
    · have h' : ¬ j = k := fun e => h e.symm
      simp [h, h']
  | keyUp j =>
    simp only [dispatch, onKeyUp, KeyMap.held_assign, Event.keyUp.injEq]
    by_cases h : k = j
    · simp [h]
    · have h' : ¬ j = k := fun e => h e.symm
      simp [h, h']

/-- How "the last event for key `k` is `t`" (`t` occurs and no key-down or
key-up of `k` follows it) behaves when one event is added at the end. -/
theorem last_event_concat (k : Int) (t : Event)
    (ht : t = Event.keyDown k ∨ t = Event.keyUp k) (es : List Event) (e : Event) :
    (∃ pre post, es ++ [e] = pre ++ t :: post
        ∧ ∀ x ∈ post, x ≠ Event.keyDown k ∧ x ≠ Event.keyUp k)
    ↔ if e = Event.keyDown k ∨ e = Event.keyUp k then e = t
      else ∃ pre post, es = pre ++ t :: post
        ∧ ∀ x ∈ post, x ≠ Event.keyDown k ∧ x ≠ Event.keyUp k := by
  constructor
  · rintro ⟨pre, post, heq, hpost⟩
    rcases List.eq_nil_or_concat post with hnil | ⟨post', x, hx⟩
    · subst hnil
      have h1 : es ++ [e] = pre ++ [t] := heq
      have h2 := List.append_inj' h1 rfl
      have h3 : e = t := by simpa using h2.2
      subst h3
      simp [ht]
    · subst hx
      have h1 : es ++ [e] = (pre ++ t :: post') ++ [x] := by simpa using heq
      have h2 := List.append_inj' h1 rfl
      have h3 : e = x := by simpa using h2.2
      subst h3
      have he := hpost e (by simp)
      rw [if_neg (by tauto)]
      exact ⟨pre, post', h2.1, fun y hy => hpost y (by simp [hy])⟩
  · intro h
    split_ifs at h with hc
    · subst h
      exact ⟨es, [], rfl, by simp⟩
    · obtain ⟨pre, post, heq, hpost⟩ := h
      refine ⟨pre, post ++ [e], by simp [heq], ?_⟩
      intro y hy
      rcases List.mem_append.mp hy with hy | hy
      · exact hpost y hy
      · have : y = e := by simpa using hy
        subst this
        exact ⟨fun c => hc (Or.inl c), fun c => hc (Or.inr c)⟩

/-- C2. Last-event rule of the key map: starting from the empty map, after any
finite sequence of events dispatched through the `switch` (key-downs go to
`onKeyDown`, key-ups to `onKeyUp`), the held state read for `k` is true exactly
when the sequence has a key-down of `k` with no later key-down or key-up of
`k`; it is false exactly when `k` never occurs or the last event for `k` is a
key-up. -/
theorem held_iff_last_event_down (g : Game) (hg : g.m_keys = KeyMap.empty) (es : List Event)
    (k : Int) :
    ((es.foldl dispatch g).m_keys.held k = true ↔
      ∃ pre post, es = pre ++ Event.keyDown k :: post
        ∧ ∀ x ∈ post, x ≠ Event.keyDown k ∧ x ≠ Event.keyUp k)
    ∧ ((es.foldl dispatch g).m_keys.held k = false ↔
      (∀ x ∈ es, x ≠ Event.keyDown k ∧ x ≠ Event.keyUp k)
      ∨ ∃ pre post, es = pre ++ Event.keyUp k :: post
        ∧ ∀ x ∈ post, x ≠ Event.keyDown k ∧ x ≠ Event.keyUp k) := by
  induction es using List.reverseRecOn with
  | nil => simp [hg, KeyMap.held_empty]
  | append_singleton es e ih =>
    rw [List.foldl_append, List.foldl_cons, List.foldl_nil, dispatch_held,
      last_event_concat k _ (Or.inl rfl), last_event_concat k _ (Or.inr rfl)]
    by_cases h1 : e = Event.keyDown k
    · subst h1
      refine ⟨by simp, ?_⟩
      simp only [if_true, true_or, Bool.true_eq_false, false_iff, not_or]
      refine ⟨fun h => ?_, fun h => by simp at h⟩
      exact (h (Event.keyDown k) (by simp)).1 rfl
    · by_cases h2 : e = Event.keyUp k
      · subst h2
        simp
      · simp only [h1, h2, if_false, or_self, List.mem_append, List.mem_singleton]
        refine ⟨ih.1, ih.2.trans ?_⟩
        constructor
        · rintro (h | h)
          · left
            rintro x (hx | hx)
            · exact h x hx
            · subst hx; exact ⟨h1, h2⟩
          · exact Or.inr h
        · rintro (h | h)
          · exact Or.inl fun x hx => h x (Or.inl hx)
          · exact Or.inr h

/-- C2 at a concrete input: after down 7, up 7, down 9 the key 9 is held and the
key 7 is not. -/
theorem held_iff_last_event_down_witness :
    ([Event.keyDown 7, Event.keyUp 7, Event.keyDown 9].foldl dispatch Game.new).m_keys.held 9
      = true
    ∧ ([Event.keyDown 7, Event.keyUp 7, Event.keyDown 9].foldl dispatch Game.new).m_keys.held 7
      = false :=
  ⟨(held_iff_last_event_down Game.new rfl
      [Event.keyDown 7, Event.keyUp 7, Event.keyDown 9] 9).1.mpr
      ⟨[Event.keyDown 7, Event.keyUp 7], [], rfl, by simp⟩,
   (held_iff_last_event_down Game.new rfl
      [Event.keyDown 7, Event.keyUp 7, Event.keyDown 9] 7).2.mpr
      (Or.inr ⟨[Event.keyDown 7], [Event.keyDown 9], rfl, by simp⟩)⟩

/-! ## The loop body, block by block -/

theorem dispatch_frameSkip (g : Game) (e : Event) :
    (dispatch g e).m_frameSkip = g.m_frameSkip := by
  cases e <;> rfl

theorem pollBlock_frameSkip (s : RunState) (ev : Option Event) :
    (pollBlock s ev).game.m_frameSkip = s.game.m_frameSkip := by
  cases ev with
  | none => rfl
  | some e => exact dispatch_frameSkip s.game e

theorem pollBlock_locals (s : RunState) (ev : Option Event) :
    (pollBlock s ev).past = s.past ∧ (pollBlock s ev).pastFps = s.pastFps
    ∧ (pollBlock s ev).fps = s.fps ∧ (pollBlock s ev).framesSkipped = s.framesSkipped
    ∧ (pollBlock s ev).calls = s.calls := by
  cases ev <;> exact ⟨rfl, rfl, rfl, rfl, rfl⟩

theorem frameSkipBlock_game (s : RunState) : (frameSkipBlock s).game = s.game := by
  simp only [frameSkipBlock]
  split_ifs <;> rfl

theorem updateBlock_now (s : RunState) (ticks : Int) :
    (updateBlock s ticks).now = toInt32 ticks := by
  simp only [updateBlock, frameSkipBlock]
  split_ifs <;> rfl

theorem updateBlock_pastFps (s : RunState) (ticks : Int) :
    (updateBlock s ticks).pastFps = s.pastFps := by
  simp only [updateBlock, frameSkipBlock]
  split_ifs <;> rfl

theorem updateBlock_frameSkip (s : RunState) (ticks : Int) :
    (updateBlock s ticks).game.m_frameSkip = s.game.m_frameSkip := by
  simp only [updateBlock]
  split_ifs
  · rw [frameSkipBlock_game]
    exact update_frameSkip s.game
  · rfl

theorem fpsBlock_game (s : RunState) : (fpsBlock s).game = s.game := by
  simp only [fpsBlock]
  split_ifs <;> rfl

theorem fpsBlock_locals (s : RunState) :
    (fpsBlock s).past = s.past ∧ (fpsBlock s).framesSkipped = s.framesSkipped
    ∧ updates (fpsBlock s).calls = updates s.calls
    ∧ draws (fpsBlock s).calls = draws s.calls := by
  simp only [fpsBlock]
  split_ifs <;> simp [updates, draws, Call.isUpdate, Call.isDraw]

/-- What the update/draw block does to the tick count, the render count and
`framesSkipped`, case by case. -/
theorem updateBlock_counts (s : RunState) (ticks : Int) :
    (toInt32 ticks - s.past < UPDATE_INTERVAL
      ∧ updates (updateBlock s ticks).calls = updates s.calls
      ∧ draws (updateBlock s ticks).calls = draws s.calls
      ∧ (updateBlock s ticks).framesSkipped = s.framesSkipped)
    ∨ (toInt32 ticks - s.past ≥ UPDATE_INTERVAL
      ∧ updates (updateBlock s ticks).calls = updates s.calls + 1
      ∧ ((s.framesSkipped ≥ s.game.m_frameSkip
          ∧ draws (updateBlock s ticks).calls = draws s.calls + 1
          ∧ (updateBlock s ticks).framesSkipped = 0)
        ∨ (s.framesSkipped < s.game.m_frameSkip
          ∧ draws (updateBlock s ticks).calls = draws s.calls
          ∧ (updateBlock s ticks).framesSkipped = s.framesSkipped + 1))) := by
  simp only [updateBlock, frameSkipBlock, update_frameSkip]
  by_cases hdue : toInt32 ticks - s.past ≥ UPDATE_INTERVAL
  · right
    by_cases hskip : s.framesSkipped ≥ s.game.m_frameSkip
    · simp [hdue, hskip, updates, draws, Call.isUpdate, Call.isDraw]
    · simp [hdue, hskip, updates, draws, Call.isUpdate, Call.isDraw]
      omega
  · left
    simp [hdue, updates, draws]
    omega

/-- The same case analysis for a whole loop iteration. -/
theorem iteration_counts (s : RunState) (ev : Option Event) (ticks : Int) :
    (toInt32 ticks - s.past < UPDATE_INTERVAL
      ∧ updates (iteration s ev ticks).calls = updates s.calls
      ∧ draws (iteration s ev ticks).calls = draws s.calls
      ∧ (iteration s ev ticks).framesSkipped = s.framesSkipped)
    ∨ (toInt32 ticks - s.past ≥ UPDATE_INTERVAL
      ∧ updates (iteration s ev ticks).calls = updates s.calls + 1
      ∧ ((s.framesSkipped ≥ s.game.m_frameSkip
          ∧ draws (iteration s ev ticks).calls = draws s.calls + 1
          ∧ (iteration s ev ticks).framesSkipped = 0)
        ∨ (s.framesSkipped < s.game.m_frameSkip
          ∧ draws (iteration s ev ticks).calls = draws s.calls
          ∧ (iteration s ev ticks).framesSkipped = s.framesSkipped + 1))) := by
  have h := updateBlock_counts (pollBlock s ev) ticks
  obtain ⟨h1, h2, h3, h4⟩ := fpsBlock_locals (updateBlock (pollBlock s ev) ticks)
  obtain ⟨p1, _, _, p4, p5⟩ := pollBlock_locals s ev
  rw [pollBlock_frameSkip, p1, p4, p5] at h
  unfold iteration
  rw [h2, h3, h4]
  exact h

theorem iteration_frameSkip (s : RunState) (ev : Option Event) (ticks : Int) :
    (iteration s ev ticks).game.m_frameSkip = s.game.m_frameSkip := by
  unfold iteration
  rw [fpsBlock_game, updateBlock_frameSkip, pollBlock_frameSkip]

/-! ## The loop -/

theorem runLoop_stopped (s : RunState) (h : s.game.m_running = false) (script : Script) :
    runLoop s script = s := by
  cases script with
  | nil => rfl
  | cons x rest => simp [runLoop, h]

theorem runLoop_append (s : RunState) (a b : Script) :
    runLoop s (a ++ b) = runLoop (runLoop s a) b := by
  induction a generalizing s with
  | nil => rfl
  | cons x rest ih =>
    obtain ⟨ev, t⟩ := x
    by_cases h : s.game.m_running = true
    · simp [runLoop, h, ih]
    · have h' : s.game.m_running = false := by simpa using h
      simp [runLoop, h', runLoop_stopped s h']

/-- A property every iteration preserves holds after the loop. -/
theorem runLoop_induct (P : RunState → Prop)
    (step : ∀ s ev t, P s → P (iteration s ev t)) (s : RunState) (h : P s)
    (script : Script) : P (runLoop s script) := by
  induction script generalizing s with
  | nil => exact h
  | cons x rest ih =>
    obtain ⟨ev, t⟩ := x
    unfold runLoop
    split_ifs
    · exact ih _ (step s ev t h)
    · exact h

/-! ## Frame skipping -/

/-- The frame-skip invariant of the loop: `framesSkipped` stays between 0 and
the threshold `N`, and the tick count is `(N + 1) * renders + framesSkipped`. -/
theorem skip_invariant_step (N : Int) (s : RunState) (ev : Option Event) (t : Int)
    (h : s.game.m_frameSkip = N ∧ 0 ≤ s.framesSkipped ∧ s.framesSkipped ≤ N
      ∧ (updates s.calls : Int) = (N + 1) * (draws s.calls : Int) + s.framesSkipped) :
    (iteration s ev t).game.m_frameSkip = N ∧ 0 ≤ (iteration s ev t).framesSkipped
      ∧ (iteration s ev t).framesSkipped ≤ N
      ∧ (updates (iteration s ev t).calls : Int)
        = (N + 1) * (draws (iteration s ev t).calls : Int) + (iteration s ev t).framesSkipped := by
  obtain ⟨hN, h0, h1, h2⟩ := h
  have hc := iteration_counts s ev t
  rw [hN] at hc
  refine ⟨by rw [iteration_frameSkip, hN], ?_⟩
  rcases hc with ⟨_, hu, hd, hf⟩ | ⟨_, hu, ⟨hge, hd, hf⟩ | ⟨hlt, hd, hf⟩⟩
  · rw [hu, hd, hf]
    exact ⟨h0, h1, h2⟩
  · rw [hu, hd, hf]
    refine ⟨le_refl 0, by linarith, ?_⟩
    push_cast
    have : s.framesSkipped = N := le_antisymm h1 hge
    linarith
  · rw [hu, hd, hf]
    refine ⟨by linarith, by linarith, ?_⟩
    push_cast
    linarith

theorem skip_invariant_run (g : Game) (t0 : Int) (N : Nat) (hN : g.m_frameSkip = N)
    (script : Script) :
    (run g t0 script).game.m_frameSkip = N ∧ 0 ≤ (run g t0 script).framesSkipped
      ∧ (run g t0 script).framesSkipped ≤ N
      ∧ (updates (run g t0 script).calls : Int)
        = ((N : Int) + 1) * (draws (run g t0 script).calls : Int)
          + (run g t0 script).framesSkipped := by
  unfold run
  refine runLoop_induct
    (fun s => s.game.m_frameSkip = N ∧ 0 ≤ s.framesSkipped ∧ s.framesSkipped ≤ N
      ∧ (updates s.calls : Int) = ((N : Int) + 1) * (draws s.calls : Int) + s.framesSkipped)
    (fun s ev t h => skip_invariant_step N s ev t h) (runInit g t0) ?_ script
  refine ⟨hN, le_refl 0, ?_, ?_⟩
  · show (0 : Int) ≤ N
    exact Int.natCast_nonneg N
  · simp [runInit, updates, draws]

/-- C4. Frame-skip rate of `Game::run` with threshold `m_frameSkip = N ≥ 0` and
`framesSkipped` starting at 0: whatever the loop has done so far (`pre`), any
further stretch of the run (`win`) that holds exactly `N + 1` due update ticks
holds exactly one render; an iteration that renders leaves `framesSkipped` at
0; with `N = 0` every due update tick renders; and the frame-skip statement
either renders (`draw()`, frame counter plus one, `framesSkipped` reset to 0)
or only adds one to `framesSkipped`. -/
theorem frame_skip_one_in_window (g : Game) (t0 : Int) (N : Nat)
    (hN : g.m_frameSkip = N) (pre win : Script) :
    (updates (run g t0 (pre ++ win)).calls = updates (run g t0 pre).calls + (N + 1) →
      draws (run g t0 (pre ++ win)).calls = draws (run g t0 pre).calls + 1)
    ∧ (∀ (s : RunState) (ev : Option Event) (t : Int),
        draws (iteration s ev t).calls ≠ draws s.calls →
          draws (iteration s ev t).calls = draws s.calls + 1
          ∧ (iteration s ev t).framesSkipped = 0)
    ∧ (N = 0 → draws (run g t0 pre).calls = updates (run g t0 pre).calls)
    ∧ (∀ s : RunState,
        (s.framesSkipped ≥ s.game.m_frameSkip →
          (frameSkipBlock s).calls = Call.draw s.game.m_hero.x s.game.m_hero.y :: s.calls
          ∧ (frameSkipBlock s).fps = s.fps + 1 ∧ (frameSkipBlock s).framesSkipped = 0)
        ∧ (s.framesSkipped < s.game.m_frameSkip →
          (frameSkipBlock s).calls = s.calls ∧ (frameSkipBlock s).fps = s.fps
          ∧ (frameSkipBlock s).framesSkipped = s.framesSkipped + 1)) := by
  obtain ⟨_, a0, a1, a2⟩ := skip_invariant_run g t0 N hN pre
  obtain ⟨_, b0, b1, b2⟩ := skip_invariant_run g t0 N hN (pre ++ win)
  refine ⟨?_, ?_, ?_, ?_⟩
  rotate_left 3
  · intro s
    constructor
    · intro h
      simp [frameSkipBlock, h]
    · intro h
      have h' : ¬ s.framesSkipped ≥ s.game.m_frameSkip := not_le.mpr h
      simp [frameSkipBlock, h']
  · intro hu
    have hu' : (updates (run g t0 (pre ++ win)).calls : Int)
        = (updates (run g t0 pre).calls : Int) + ((N : Int) + 1) := by
      rw [hu]; push_cast; ring
    have hpos : (0 : Int) ≤ N := Int.natCast_nonneg N
    have key : (draws (run g t0 (pre ++ win)).calls : Int)
        = (draws (run g t0 pre).calls : Int) + 1 := by
      rcases lt_trichotomy (draws (run g t0 (pre ++ win)).calls : Int)
          ((draws (run g t0 pre).calls : Int) + 1) with hlt | heq | hgt
      · exfalso
        have hle : (draws (run g t0 (pre ++ win)).calls : Int)
            ≤ (draws (run g t0 pre).calls : Int) := by linarith
        have := mul_le_mul_of_nonneg_left hle (by linarith : (0 : Int) ≤ (N : Int) + 1)
        linarith
      · exact heq
      · exfalso
        have hge : (draws (run g t0 pre).calls : Int) + 2
            ≤ (draws (run g t0 (pre ++ win)).calls : Int) := by linarith
        have := mul_le_mul_of_nonneg_left hge (by linarith : (0 : Int) ≤ (N : Int) + 1)
        linarith
    exact_mod_cast key
  · intro s ev t hne
    rcases iteration_counts s ev t with ⟨_, _, hd, _⟩ | ⟨_, _, ⟨_, hd, hf⟩ | ⟨_, hd, _⟩⟩
    · exact absurd hd hne
    · exact ⟨hd, hf⟩
    · exact absurd hd hne
  · intro hz
    subst hz
    have : (draws (run g t0 pre).calls : Int) = (updates (run g t0 pre).calls : Int) := by
      push_cast at a1 a2
      linarith
    exact_mod_cast this

/-- C4 at a concrete input: threshold 1, and a stretch of two due ticks after
one earlier due tick holds exactly one render. -/
theorem frame_skip_one_in_window_witness :
    draws (run { Game.new with m_running := true, m_frameSkip := 1 } 0
        ([(none, 16)] ++ [(none, 32), (none, 48)])).calls
      = draws (run { Game.new with m_running := true, m_frameSkip := 1 } 0
        [(none, 16)]).calls + 1 :=
  (frame_skip_one_in_window { Game.new with m_running := true, m_frameSkip := 1 } 0 1 rfl
    [(none, 16)] [(none, 32), (none, 48)]).1 (by decide)

/-- C5, as the claim states it, fails: with threshold 2 the first due tick and
the fourth do not render; the renders are made by the third and the sixth. -/
theorem first_tick_does_not_render :
    (start { Game.new with m_frameSkip := 2 } false false 0 [(none, 16)]).map RunState.calls
      = some [Call.update]
    ∧ (start { Game.new with m_frameSkip := 2 } false false 0
        [(none, 16), (none, 32), (none, 48), (none, 64), (none, 80), (none, 96)]).map
          RunState.calls
      = some [Call.draw 0 0, Call.update, Call.update, Call.update,
          Call.draw 0 0, Call.update, Call.update, Call.update] := by
  decide

/-- C5, amended. With threshold 2 and `framesSkipped` starting at 0, an
iteration that makes the `t`-th due update tick of the run (counted from 1)
renders if and only if `t mod 3 = 0`: the renders are made by ticks 3, 6, 9,
..., and the first two ticks render nothing. -/
theorem frame_skip_phase (g : Game) (t0 : Int) (hN : g.m_frameSkip = 2) (pre : Script)
    (ev : Option Event) (t : Int)
    (hdue : updates (iteration (run g t0 pre) ev t).calls
      = updates (run g t0 pre).calls + 1) :
    (draws (iteration (run g t0 pre) ev t).calls = draws (run g t0 pre).calls + 1
      ↔ updates (iteration (run g t0 pre) ev t).calls % 3 = 0)
    ∧ (draws (iteration (run g t0 pre) ev t).calls = draws (run g t0 pre).calls
      ↔ updates (iteration (run g t0 pre) ev t).calls % 3 ≠ 0) := by
  obtain ⟨a, a0, a1, a2⟩ := skip_invariant_run g t0 2 hN pre
  have hc := iteration_counts (run g t0 pre) ev t
  rw [a] at hc
  push_cast at a1 a2 hc
  rcases hc with ⟨_, hu, _, _⟩ | ⟨_, hu, ⟨hge, hd, _⟩ | ⟨hlt, hd, _⟩⟩
  · omega
  · rw [hu, hd]
    omega
  · rw [hu, hd]
    omega

/-- C5 amended, at a concrete input: the third due tick renders. -/
theorem frame_skip_phase_witness :
    draws (iteration (run { Game.new with m_running := true, m_frameSkip := 2 } 0
        [(none, 16), (none, 32)]) none 48).calls
      = draws (run { Game.new with m_running := true, m_frameSkip := 2 } 0
        [(none, 16), (none, 32)]).calls + 1 :=
  (frame_skip_phase { Game.new with m_running := true, m_frameSkip := 2 } 0 rfl
    [(none, 16), (none, 32)] none 48 (by decide)).1.mpr (by decide)

/-! ## The fixed-step check -/

theorem dispatch_hero (g : Game) (e : Event) : (dispatch g e).m_hero = g.m_hero := by
  cases e <;> rfl

theorem pollBlock_hero (s : RunState) (ev : Option Event) :
    (pollBlock s ev).game.m_hero = s.game.m_hero := by
  cases ev with
  | none => rfl
  | some e => exact dispatch_hero s.game e

theorem fpsBlock_now (s : RunState) : (fpsBlock s).now = s.now := by
  simp only [fpsBlock]
  split_ifs <;> rfl

theorem iteration_now (s : RunState) (ev : Option Event) (ticks : Int) :
    (iteration s ev ticks).now = toInt32 ticks := by
  simp only [iteration]
  rw [fpsBlock_now, updateBlock_now]

/-- The update/draw block when the update is due. -/
theorem updateBlock_due (s : RunState) (ticks : Int)
    (h : toInt32 ticks - s.past ≥ UPDATE_INTERVAL) :
    (updateBlock s ticks).game = update s.game
    ∧ updates (updateBlock s ticks).calls = updates s.calls + 1
    ∧ (updateBlock s ticks).past = toInt32 ticks := by
  simp only [updateBlock, frameSkipBlock, if_pos h]
  split_ifs <;> simp [updates, Call.isUpdate]

/-- The update/draw block when the update is not due. -/
theorem updateBlock_not_due (s : RunState) (ticks : Int)
    (h : toInt32 ticks - s.past < UPDATE_INTERVAL) :
    updateBlock s ticks = { s with now := toInt32 ticks } := by
  have hnot : ¬ toInt32 ticks - s.past ≥ UPDATE_INTERVAL := not_le.mpr h
  simp only [updateBlock, if_neg hnot]

/-- C7. Fixed-step check without catch-up.  `UPDATE_INTERVAL` is 16, and `now`
is the `int` the `SDL_GetTicks()` reading converts to.  When `now - past ≥ 16`
the update/draw block, and so the whole loop iteration, calls `update()`
exactly once, however large the difference is, and sets `past` to `now`.  When
`now - past < 16` the block calls nothing and leaves `past`, the game object
(so the position), `framesSkipped` and the frame counter as they were; the
whole iteration then has no `update()` and no `draw()` call and leaves `past`,
the position and `framesSkipped` as they were. -/
theorem update_check_fires_once (s : RunState) (ev : Option Event) (ticks : Int) :
    UPDATE_INTERVAL = 16
    ∧ (updateBlock s ticks).now = toInt32 ticks
    ∧ (iteration s ev ticks).now = toInt32 ticks
    ∧ (toInt32 ticks - s.past ≥ 16 →
        (updateBlock s ticks).game = update s.game
        ∧ updates (updateBlock s ticks).calls = updates s.calls + 1
        ∧ (updateBlock s ticks).past = (updateBlock s ticks).now
        ∧ (iteration s ev ticks).game = update (pollBlock s ev).game
        ∧ updates (iteration s ev ticks).calls = updates s.calls + 1
        ∧ (iteration s ev ticks).past = (iteration s ev ticks).now)
    ∧ (toInt32 ticks - s.past < 16 →
        (updateBlock s ticks).calls = s.calls
        ∧ (updateBlock s ticks).past = s.past
        ∧ (updateBlock s ticks).game = s.game
        ∧ (updateBlock s ticks).game.m_hero = s.game.m_hero
        ∧ (updateBlock s ticks).framesSkipped = s.framesSkipped
        ∧ (updateBlock s ticks).fps = s.fps
        ∧ updates (iteration s ev ticks).calls = updates s.calls
        ∧ draws (iteration s ev ticks).calls = draws s.calls
        ∧ (iteration s ev ticks).past = s.past
        ∧ (iteration s ev ticks).game = (pollBlock s ev).game
        ∧ (iteration s ev ticks).game.m_hero = s.game.m_hero
        ∧ (iteration s ev ticks).framesSkipped = s.framesSkipped) := by
  have h16 : UPDATE_INTERVAL = 16 := by decide
  obtain ⟨p1, _, _, p4, p5⟩ := pollBlock_locals s ev
  obtain ⟨f1, f2, f3, f4⟩ := fpsBlock_locals (updateBlock (pollBlock s ev) ticks)
  have fg := fpsBlock_game (updateBlock (pollBlock s ev) ticks)
  refine ⟨h16, updateBlock_now s ticks, iteration_now s ev ticks, ?_, ?_⟩
  · intro h
    have hdue : toInt32 ticks - s.past ≥ UPDATE_INTERVAL := by rw [h16]; exact h
    have hdue' : toInt32 ticks - (pollBlock s ev).past ≥ UPDATE_INTERVAL := by
      rw [p1]; exact hdue
    obtain ⟨b1, b2, b3⟩ := updateBlock_due s ticks hdue
    obtain ⟨c1, c2, c3⟩ := updateBlock_due (pollBlock s ev) ticks hdue'
    refine ⟨b1, b2, by rw [b3, updateBlock_now], ?_, ?_, ?_⟩
    · simp only [iteration]
      rw [fg, c1]
    · simp only [iteration]
      rw [f3, c2, p5]
    · rw [iteration_now]
      simp only [iteration]
      rw [f1, c3]
  · intro h
    have hlt : toInt32 ticks - s.past < UPDATE_INTERVAL := by rw [h16]; exact h
    have hlt' : toInt32 ticks - (pollBlock s ev).past < UPDATE_INTERVAL := by
      rw [p1]; exact hlt
    have b := updateBlock_not_due s ticks hlt
    have c := updateBlock_not_due (pollBlock s ev) ticks hlt'
    have hg : (iteration s ev ticks).game = (pollBlock s ev).game := by
      simp only [iteration]
      rw [fg, c]
    refine ⟨by rw [b], by rw [b], by rw [b], by rw [b], by rw [b], by rw [b],
      ?_, ?_, ?_, hg, ?_, ?_⟩
    · simp only [iteration]
      rw [f3, c]
      exact congrArg updates p5
    · simp only [iteration]
      rw [f4, c]
      exact congrArg draws p5
    · simp only [iteration]
      rw [f1, c]
      exact p1
    · rw [hg, pollBlock_hero]
    · simp only [iteration]
      rw [f2, c]
      exact p4

/-- C7 at concrete inputs, both from the state at loop start with clock 0.  At
the reading 100 the iteration calls `update()` once and sets `past` to 100, not
to 16.  At the reading 2147483648 the `int` `now` is -2147483648, the update is
not due, and the iteration calls nothing. -/
theorem update_check_fires_once_witness :
    (updates (iteration (runInit Game.new 0) none 100).calls
        = updates (runInit Game.new 0).calls + 1
      ∧ (iteration (runInit Game.new 0) none 100).past = 100)
    ∧ (updates (iteration (runInit Game.new 0) none 2147483648).calls
        = updates (runInit Game.new 0).calls
      ∧ (iteration (runInit Game.new 0) none 2147483648).past = 0) :=
  ⟨⟨((update_check_fires_once (runInit Game.new 0) none 100).2.2.2.1 (by decide)).2.2.2.2.1,
    by decide⟩,
   ⟨((update_check_fires_once (runInit Game.new 0) none 2147483648).2.2.2.2
      (by decide)).2.2.2.2.2.2.1,
    by decide⟩⟩

/-! ## Quit -/

theorem update_stop (g : Game) :
    update { g with m_running := false } = { update g with m_running := false } := by
  simp only [update]
  split_ifs <;> rfl

theorem iteration_quit (s : RunState) (ticks : Int) :
    iteration s (some Event.quit) ticks
      = { iteration s none ticks with
          game := { (iteration s none ticks).game with m_running := false } } := by
  simp only [iteration, pollBlock, dispatch, onQuit, fpsBlock, updateBlock, frameSkipBlock,
    update_stop]
  split_ifs <;> rfl

/-- C1, as the claim states it, fails: the loop is started at clock 0 and polls
`SDL_QUIT` at clock 1000.  Right after the dispatch `m_running` is false and
nothing has been called, yet the same iteration goes on to call `update()`,
`draw()` and `fpsChanged(1)`. -/
theorem quit_iteration_still_updates :
    (pollBlock (runInit { Game.new with m_running := true } 0)
        (some Event.quit)).game.m_running = false
    ∧ (pollBlock (runInit { Game.new with m_running := true } 0) (some Event.quit)).calls = []
    ∧ (start Game.new false false 0 [(some Event.quit, 1000)]).map RunState.calls
      = some [Call.fpsChanged 1, Call.draw 0 0, Call.update] := by
  decide

/-- C1, amended. In the iteration that dispatches `SDL_QUIT` the rest of the
loop body makes the same calls as an iteration without an event; that
iteration is the last: `m_running` is false after it, and whatever the
environment supplies afterwards (`post`) the run ends in the same state, with
the same call log. -/
theorem quit_ends_run (s : RunState) (pre post : Script) (ticks : Int) :
    (iteration s (some Event.quit) ticks).calls = (iteration s none ticks).calls
    ∧ (iteration s (some Event.quit) ticks).game.m_running = false
    ∧ (runLoop s (pre ++ [(some Event.quit, ticks)])).game.m_running = false
    ∧ runLoop s (pre ++ (some Event.quit, ticks) :: post)
      = runLoop s (pre ++ [(some Event.quit, ticks)]) := by
  have hq : ∀ s' : RunState, (runLoop s' [(some Event.quit, ticks)]).game.m_running = false := by
    intro s'
    by_cases h : s'.game.m_running = true
    · simp [runLoop, h, iteration_quit]
    · have h' : s'.game.m_running = false := by simpa using h
      simp [runLoop, h']
  refine ⟨by rw [iteration_quit], by rw [iteration_quit], ?_, ?_⟩
  · rw [runLoop_append]
    exact hq _
  · have e : pre ++ (some Event.quit, ticks) :: post
        = (pre ++ [(some Event.quit, ticks)]) ++ post := by simp
    rw [e, runLoop_append s (pre ++ [(some Event.quit, ticks)]) post,
      runLoop_stopped _ (by rw [runLoop_append]; exact hq _)]

/-! ## FPS accounting -/

theorem rendersSinceReport_cons_update (cs : List Call) :
    rendersSinceReport (Call.update :: cs) = rendersSinceReport cs := by
  simp [rendersSinceReport, draws, Call.isFpsChanged, Call.isDraw, List.takeWhile_cons]

theorem rendersSinceReport_cons_draw (x y : Int) (cs : List Call) :
    rendersSinceReport (Call.draw x y :: cs) = rendersSinceReport cs + 1 := by
  simp [rendersSinceReport, draws, Call.isFpsChanged, Call.isDraw, List.takeWhile_cons]

theorem rendersSinceReport_cons_fpsChanged (v : Int) (cs : List Call) :
    rendersSinceReport (Call.fpsChanged v :: cs) = 0 := by
  simp [rendersSinceReport, draws, Call.isFpsChanged, List.takeWhile_cons]

/-- The update/draw block keeps the frame counter equal to the number of renders
since the latest report, and adds no `fpsChanged` call. -/
theorem updateBlock_fps (s : RunState) (ticks : Int)
    (h : s.fps = (rendersSinceReport s.calls : Int)) :
    (updateBlock s ticks).fps = (rendersSinceReport (updateBlock s ticks).calls : Int)
    ∧ ∃ new, (updateBlock s ticks).calls = new ++ s.calls
        ∧ ∀ v, Call.fpsChanged v ∉ new := by
  simp only [updateBlock, frameSkipBlock]
  split_ifs
  · refine ⟨?_, [Call.draw (update s.game).m_hero.x (update s.game).m_hero.y, Call.update],
      rfl, by simp⟩
    simp only [rendersSinceReport_cons_draw, rendersSinceReport_cons_update, h]
    push_cast
    rfl
  · refine ⟨?_, [Call.update], rfl, by simp⟩
    simp only [rendersSinceReport_cons_update, h]
  · exact ⟨h, [], rfl, by simp⟩

theorem fps_invariant_step (s : RunState) (ev : Option Event) (t : Int)
    (h : s.fps = (rendersSinceReport s.calls : Int)) :
    (iteration s ev t).fps = (rendersSinceReport (iteration s ev t).calls : Int) := by
  obtain ⟨_, _, p3, _, p5⟩ := pollBlock_locals s ev
  have h' : (pollBlock s ev).fps = (rendersSinceReport (pollBlock s ev).calls : Int) := by
    rw [p3, p5]; exact h
  have hu := (updateBlock_fps (pollBlock s ev) t h').1
  simp only [iteration, fpsBlock]
  split_ifs
  · simp [rendersSinceReport_cons_fpsChanged]
  · exact hu

theorem fps_invariant_run (g : Game) (t0 : Int) (script : Script) :
    (run g t0 script).fps = (rendersSinceReport (run g t0 script).calls : Int) := by
  unfold run
  exact runLoop_induct (fun s => s.fps = (rendersSinceReport s.calls : Int))
    fps_invariant_step (runInit g t0) (by simp [runInit, rendersSinceReport, draws]) script

/-- C6. FPS accounting of `Game::run`: after any run prefix `pre`, the next
iteration calls `fpsChanged` exactly when `now - pastFps ≥ 1000`, where `now`
is the `int` the `SDL_GetTicks()` reading `t` converts to.  When it does, the
call is the last of the iteration, its argument is the number of `draw()`
calls made since the previous `fpsChanged` call (or since the start of the
loop), those of this iteration included, and afterwards the frame counter is 0
and `pastFps` is `now`.  Otherwise the iteration adds no `fpsChanged` call and
keeps `pastFps`. -/
theorem fps_report_accounting (g : Game) (t0 : Int) (pre : Script) (ev : Option Event)
    (t : Int) :
    (iteration (run g t0 pre) ev t).now = toInt32 t
    ∧ (toInt32 t - (run g t0 pre).pastFps ≥ 1000 →
      ∃ new, (iteration (run g t0 pre) ev t).calls
          = Call.fpsChanged (rendersSinceReport (new ++ (run g t0 pre).calls))
            :: (new ++ (run g t0 pre).calls)
        ∧ (∀ v, Call.fpsChanged v ∉ new)
        ∧ (iteration (run g t0 pre) ev t).fps = 0
        ∧ (iteration (run g t0 pre) ev t).pastFps = (iteration (run g t0 pre) ev t).now)
    ∧ (toInt32 t - (run g t0 pre).pastFps < 1000 →
      ∃ new, (iteration (run g t0 pre) ev t).calls = new ++ (run g t0 pre).calls
        ∧ (∀ v, Call.fpsChanged v ∉ new)
        ∧ (iteration (run g t0 pre) ev t).pastFps = (run g t0 pre).pastFps) := by
  have hinv := fps_invariant_run g t0 pre
  obtain ⟨_, p2, p3, _, p5⟩ := pollBlock_locals (run g t0 pre) ev
  have h' : (pollBlock (run g t0 pre) ev).fps
      = (rendersSinceReport (pollBlock (run g t0 pre) ev).calls : Int) := by
    rw [p3, p5]; exact hinv
  obtain ⟨hu, new, hnew, hfree⟩ := updateBlock_fps (pollBlock (run g t0 pre) ev) t h'
  have hnow := updateBlock_now (pollBlock (run g t0 pre) ev) t
  have hpf := updateBlock_pastFps (pollBlock (run g t0 pre) ev) t
  rw [p5] at hnew
  rw [p2] at hpf
  refine ⟨iteration_now _ ev t, ?_, ?_⟩
  · intro hge
    have hc : (updateBlock (pollBlock (run g t0 pre) ev) t).now
        - (updateBlock (pollBlock (run g t0 pre) ev) t).pastFps ≥ 1000 := by
      rw [hnow, hpf]; exact hge
    refine ⟨new, ?_, hfree, ?_, ?_⟩
    · simp only [iteration, fpsBlock, if_pos hc]
      rw [hu, hnew]
    · simp only [iteration, fpsBlock, if_pos hc]
    · rw [iteration_now]
      simp only [iteration, fpsBlock, if_pos hc]
      exact hnow
  · intro hlt
    have hc : ¬ (updateBlock (pollBlock (run g t0 pre) ev) t).now
        - (updateBlock (pollBlock (run g t0 pre) ev) t).pastFps ≥ 1000 := by
      rw [hnow, hpf]; omega
    refine ⟨new, ?_, hfree, ?_⟩
    · simp only [iteration, fpsBlock, if_neg hc]
      exact hnew
    · simp only [iteration, fpsBlock, if_neg hc]
      exact hpf

/-- C6 at concrete inputs, both after two renders at the readings 16 and 32 of
a loop started at clock 0.  An iteration at the reading 1000 renders once more
and reports 3; an iteration at the reading 2147483648, where the `int` `now`
is -2147483648, reports nothing and keeps `pastFps`. -/
theorem fps_report_accounting_witness :
    (∃ new, (iteration (run { Game.new with m_running := true } 0 [(none, 16), (none, 32)])
          none 1000).calls
        = Call.fpsChanged (rendersSinceReport
            (new ++ (run { Game.new with m_running := true } 0 [(none, 16), (none, 32)]).calls))
          :: (new ++ (run { Game.new with m_running := true } 0 [(none, 16), (none, 32)]).calls)
      ∧ (∀ v, Call.fpsChanged v ∉ new)
      ∧ (iteration (run { Game.new with m_running := true } 0 [(none, 16), (none, 32)])
          none 1000).fps = 0
      ∧ (iteration (run { Game.new with m_running := true } 0 [(none, 16), (none, 32)])
          none 1000).pastFps
        = (iteration (run { Game.new with m_running := true } 0 [(none, 16), (none, 32)])
          none 1000).now)
    ∧ (∃ new, (iteration (run { Game.new with m_running := true } 0 [(none, 16), (none, 32)])
          none 2147483648).calls
        = new ++ (run { Game.new with m_running := true } 0 [(none, 16), (none, 32)]).calls
      ∧ (∀ v, Call.fpsChanged v ∉ new)
      ∧ (iteration (run { Game.new with m_running := true } 0 [(none, 16), (none, 32)])
          none 2147483648).pastFps
        = (run { Game.new with m_running := true } 0 [(none, 16), (none, 32)]).pastFps) :=
  ⟨(fps_report_accounting { Game.new with m_running := true } 0 [(none, 16), (none, 32)]
      none 1000).2.1 (by decide),
   (fps_report_accounting { Game.new with m_running := true } 0 [(none, 16), (none, 32)]
      none 2147483648).2.2 (by decide)⟩

end Sdl2Boilerplate
